import Mathlib

/-! Verification of the `ice` task / context runtime.

Shallow embedding of `src/ice/task.hpp`, `src/ice/context.hpp` and the resumption target
of `src/dialog.hpp`.

* Pointers and coroutine handles are natural numbers; a nullable handle is an
  `Option`.
* Every atomic access (`load`, `store`, `exchange`, `compare_exchange_*`) is one
  indivisible step on the shared value.  Concurrent executions are modelled as
  interleavings of these steps, driven by an explicit schedule.
* Resuming a continuation is recorded as an observable effect in a log.
-/

namespace ice

namespace detail

/-! ## `task.hpp`: continuation and promise -/

/-- The `enum class state` of `task_promise_base`. -/
inductive state where
  | running
  | consumer_suspended
  | consumer_detached
  | finished
  deriving DecidableEq, Repr

/-- The class `continuation`: a callback pointer and a state pointer, `0` being `nullptr`. -/
structure continuation where
  callback_ : Nat := 0
  state_ : Nat := 0
  deriving DecidableEq, Repr

/-- What a call of `continuation::resume` does, as an observable effect. -/
inductive resumption where
  | callback (fn : Nat) (arg : Nat)
  | coroutine (address : Nat)
  deriving DecidableEq, Repr

/-- The conversion `continuation::operator bool`. -/
def continuation.toBool (c : continuation) : Bool :=
  c.callback_ != 0 || c.state_ != 0

/-- The method `continuation::resume`: call the callback with the state when there is a
callback, otherwise resume the coroutine whose address is the state. -/
def continuation.resume (c : continuation) : resumption :=
  if c.callback_ != 0 then resumption.callback c.callback_ c.state_
  else resumption.coroutine c.state_

/-- The data members of `task_promise_base`. -/
structure task_promise_base where
  state_ : state := state.running
  continuation_ : continuation := {}
  deriving DecidableEq, Repr

/-- The atomic `exchange`: returns the previous value and the value now stored. -/
def atomic_exchange (current desired : state) : state × state :=
  (current, desired)

/-- The atomic `compare_exchange_strong`: the success flag and the value now stored. -/
def compare_exchange_strong (current expected desired : state) : Bool × state :=
  if current = expected then (true, desired) else (false, current)

namespace task_promise_base

/-- The method `is_ready`. -/
def is_ready (p : task_promise_base) : Bool :=
  p.state_ == state.finished

/-- The method `try_detach`: an unconditional exchange to `consumer_detached`. -/
def try_detach (p : task_promise_base) : Bool × task_promise_base :=
  let r := atomic_exchange p.state_ state.consumer_detached
  (r.1 == state.running, { p with state_ := r.2 })

/-- First statement of `try_await`: `continuation_ = continuation`. -/
def store_continuation (p : task_promise_base) (c : continuation) : task_promise_base :=
  { p with continuation_ := c }

/-- Second statement of `try_await`: the compare-exchange `running -> consumer_suspended`. -/
def await_cas (p : task_promise_base) : Bool × task_promise_base :=
  let r := compare_exchange_strong p.state_ state.running state.consumer_suspended
  (r.1, { p with state_ := r.2 })

/-- The method `try_await`. -/
def try_await (p : task_promise_base) (c : continuation) : Bool × task_promise_base :=
  await_cas (store_continuation p c)

/-- The `await_ready` of the awaitable returned by `final_suspend`. -/
def final_await_ready (p : task_promise_base) : Bool :=
  p.state_ == state.consumer_detached

/-- The `await_suspend` of the awaitable returned by `final_suspend`: the returned flag
(true: the frame stays suspended, false: the frame runs on and destroys itself), the
promise afterwards, and the resumptions performed. -/
def final_await_suspend (p : task_promise_base) : Bool × task_promise_base × List resumption :=
  let r := atomic_exchange p.state_ state.finished
  (r.1 != state.consumer_detached,
   { p with state_ := r.2 },
   if r.1 = state.consumer_suspended then [p.continuation_.resume] else [])

end task_promise_base

/-! ## Interleaving model: one registration against one completion -/

/-- The two sides racing on a promise. -/
inductive side where
  | consumer
  | completion
  deriving DecidableEq, Repr

/-- Program counter of the registering side, `starter::start` or the awaitable's
`await_ready` / `await_suspend`: the `is_ready` load, the store of the continuation, the
compare-exchange, done. -/
inductive consumer_pc where
  | check
  | store
  | cas
  | done
  deriving DecidableEq, Repr

/-- Program counter of the completing coroutine in `final_suspend`: the `await_ready`
load, the `await_suspend` exchange, done. -/
inductive completion_pc where
  | ready
  | suspend
  | done
  deriving DecidableEq, Repr

/-- The promise shared by both sides, their program counters, and the log of
resumptions, each tagged with the side that performed it. -/
structure race where
  promise : task_promise_base := {}
  consumer : consumer_pc := consumer_pc.check
  completion : completion_pc := completion_pc.ready
  log : List (side × resumption) := []
  deriving DecidableEq, Repr

/-- One atomic step of the registering side with continuation `c`.
`if (!coroutine_ || promise.is_ready() || !promise.try_await(c)) c.resume();` -/
def consumer_step (c : continuation) (s : race) : race :=
  match s.consumer with
  | consumer_pc.check =>
    if s.promise.is_ready then
      { s with consumer := consumer_pc.done, log := s.log ++ [(side.consumer, c.resume)] }
    else { s with consumer := consumer_pc.store }
  | consumer_pc.store =>
    { s with promise := s.promise.store_continuation c, consumer := consumer_pc.cas }
  | consumer_pc.cas =>
    let r := s.promise.await_cas
    if r.1 then { s with promise := r.2, consumer := consumer_pc.done }
    else { s with promise := r.2, consumer := consumer_pc.done,
                  log := s.log ++ [(side.consumer, c.resume)] }
  | consumer_pc.done => s

/-- One atomic step of the completing coroutine. -/
def completion_step (s : race) : race :=
  match s.completion with
  | completion_pc.ready =>
    if s.promise.final_await_ready then { s with completion := completion_pc.done }
    else { s with completion := completion_pc.suspend }
  | completion_pc.suspend =>
    let r := s.promise.final_await_suspend
    { s with promise := r.2.1, completion := completion_pc.done,
             log := s.log ++ r.2.2.map (fun e => (side.completion, e)) }
  | completion_pc.done => s

/-- One step of the side chosen by the scheduler. -/
def race_step (c : continuation) (who : side) (s : race) : race :=
  match who with
  | side.consumer => consumer_step c s
  | side.completion => completion_step s

/-- Run a schedule: the list says which side moves next. -/
def race_run (c : continuation) : List side → race → race
  | [], s => s
  | who :: rest, s => race_run c rest (race_step c who s)

/-- A task whose coroutine is still running and that nobody has awaited yet. -/
def race_init : race := {}

/-- The reachable configurations of the race for continuation `c`. -/
def race_inv (c : continuation) (s : race) : Prop :=
  (s.consumer ≠ consumer_pc.done ∧ s.log = [] ∧
      ((s.completion ≠ completion_pc.done ∧ s.promise.state_ = state.running) ∨
       (s.completion = completion_pc.done ∧ s.promise.state_ = state.finished)) ∧
      (s.consumer = consumer_pc.cas → s.promise.continuation_ = c)) ∨
  (s.consumer = consumer_pc.done ∧ s.completion ≠ completion_pc.done ∧
      s.promise.state_ = state.consumer_suspended ∧ s.promise.continuation_ = c ∧
      s.log = []) ∨
  (s.consumer = consumer_pc.done ∧ s.completion = completion_pc.done ∧
      s.promise.state_ = state.finished ∧
      (s.log = [(side.consumer, c.resume)] ∨ s.log = [(side.completion, c.resume)]))

/-- Progress measure of the registering side. -/
def consumer_pc.rank : consumer_pc → Nat
  | consumer_pc.check => 0
  | consumer_pc.store => 1
  | consumer_pc.cas => 2
  | consumer_pc.done => 3

/-- Progress measure of the completing side. -/
def completion_pc.rank : completion_pc → Nat
  | completion_pc.ready => 0
  | completion_pc.suspend => 1
  | completion_pc.done => 2


/-! ## Sequences of promise operations -/

/-- The operations that write the promise state: `try_await`, `try_detach`, the whole
`final_suspend` (its `await_ready` load followed, unless it answered true, by
`await_suspend`), and the `await_suspend` exchange alone, as it runs when the `await_ready`
load came before a concurrent `try_detach`. -/
inductive promise_op where
  | try_await (c : continuation)
  | try_detach
  | completion
  | completion_exchange
  deriving DecidableEq, Repr

/-- What an operation leaves behind: the promise, the returned flag, the resumptions it
performed itself. -/
structure op_result where
  promise : task_promise_base
  returned : Bool
  resumed : List resumption
  deriving DecidableEq, Repr

/-- Apply one operation to a promise. For a completion whose `await_ready` answered true,
`await_suspend` is not called: nothing is written, and the flag is false since the frame
runs on. -/
def promise_op.apply : promise_op → task_promise_base → op_result
  | promise_op.try_await c, p =>
    let r := p.try_await c
    { promise := r.2, returned := r.1, resumed := [] }
  | promise_op.try_detach, p =>
    let r := p.try_detach
    { promise := r.2, returned := r.1, resumed := [] }
  | promise_op.completion, p =>
    if p.final_await_ready then { promise := p, returned := false, resumed := [] }
    else
      let r := p.final_await_suspend
      { promise := r.2.1, returned := r.1, resumed := r.2.2 }
  | promise_op.completion_exchange, p =>
    let r := p.final_await_suspend
    { promise := r.2.1, returned := r.1, resumed := r.2.2 }

/-- Apply a sequence of operations, first to last. -/
def run_ops : List promise_op → task_promise_base → task_promise_base
  | [], p => p
  | o :: rest, p => run_ops rest (o.apply p).promise

/-- The state changes the specification allows: `running -> consumer_suspended`,
`running -> consumer_detached`, `running -> finished`, `consumer_suspended -> finished`,
`consumer_detached -> finished`, or no change. -/
def spec_transition (a b : state) : Bool :=
  a == b ||
  (a == state.running && b != state.running) ||
  (a == state.consumer_suspended && b == state.finished) ||
  (a == state.consumer_detached && b == state.finished)

/-- The state changes each operation of the source makes. -/
def code_transition : promise_op → state → state → Bool
  | promise_op.try_await _, a, b =>
    (a == state.running && b == state.consumer_suspended) || (a != state.running && b == a)
  | promise_op.try_detach, _, b => b == state.consumer_detached
  | promise_op.completion, a, b =>
    (a == state.consumer_detached && b == state.consumer_detached) ||
    (a != state.consumer_detached && b == state.finished)
  | promise_op.completion_exchange, _, b => b == state.finished

end detail

/-! ## `task.hpp`: the owning handle `task<T>` -/

/-- The coroutine frames: the promise of the frame at each address, and the addresses of
the frames destroyed so far, in order. -/
structure frames where
  promise : Nat → detail.task_promise_base
  destroyed : List Nat

/-- The class `task<T>`: its one data member, the nullable coroutine handle. -/
structure task where
  coroutine_ : Option Nat := none
  deriving DecidableEq, Repr

namespace task

/-- The defaulted constructor `task()`. -/
def default_ctor : task := {}

/-- The constructor `task(coroutine_handle)`. -/
def from_handle (coroutine : Nat) : task := { coroutine_ := some coroutine }

/-- The move constructor: the new task and what is left of the source. -/
def move_ctor (other : task) : task × task :=
  ({ coroutine_ := other.coroutine_ }, { coroutine_ := none })

/-- The private method `destroy`; `none` is `std::terminate()`. -/
def destroy (t : task) (fr : frames) : Option frames :=
  match t.coroutine_ with
  | none => some fr
  | some h =>
    if !(fr.promise h).is_ready then none
    else some { fr with destroyed := fr.destroyed ++ [h] }

/-- The destructor `~task()`. -/
def dtor (t : task) (fr : frames) : Option frames :=
  t.destroy fr

/-- The method `is_ready`. -/
def is_ready (t : task) (fr : frames) : Bool :=
  match t.coroutine_ with
  | none => true
  | some h => (fr.promise h).is_ready

/-- The method `detach`: the task afterwards and the frames afterwards. -/
def detach (t : task) (fr : frames) : task × frames :=
  match t.coroutine_ with
  | none => (t, fr)
  | some coro =>
    let r := (fr.promise coro).try_detach
    let fr1 : frames := { fr with promise := Function.update fr.promise coro r.2 }
    ({ coroutine_ := none },
     if !r.1 then { fr1 with destroyed := fr1.destroyed ++ [coro] } else fr1)

end task

/-- Task objects by address, together with the frames. -/
structure heap where
  tasks : Nat → task
  fr : frames

/-- The move assignment `operator=(task&& other)` on the task object at address `self`;
`none` is `std::terminate()`. -/
def task.move_assign (self other : Nat) (m : heap) : Option heap :=
  if other ≠ self then
    match (m.tasks self).destroy m.fr with
    | none => none
    | some fr1 =>
      some { tasks := Function.update
                        (Function.update m.tasks self { coroutine_ := (m.tasks other).coroutine_ })
                        other { coroutine_ := none },
             fr := fr1 }
  else some m

/-! ## Interleaving model: `detach()` against the coroutine's completion -/

/-- Program counter of `task::detach`: the test and clearing of `coroutine_`, the
`try_detach` exchange with the conditional `coro.destroy()`, done. -/
inductive detach_pc where
  | start
  | exchange
  | done
  deriving DecidableEq, Repr

/-- Progress measure of `detach`. -/
def detach_pc.rank : detach_pc → Nat
  | detach_pc.start => 0
  | detach_pc.exchange => 1
  | detach_pc.done => 2

/-! ## `context.hpp`: events, the context and the schedule awaitable -/

/-- The data members of `context::event`: the handle of the awaiting coroutine and the
atomic `next_` link. -/
structure event where
  awaiter_ : Nat := 0
  next_ : Option Nat := none
  deriving DecidableEq, Repr

/-- The data members of `context` apart from the condition variable and the mutex. The
thread identifier `none` is the default `std::thread::id`, which is no thread's. -/
structure context where
  stop_ : Bool := false
  head_ : Option Nat := none
  thread_ : Option Nat := none
  deriving DecidableEq, Repr

/-- A context together with the event objects in memory, by address. -/
structure world where
  ctx : context := {}
  events : Nat → event := fun _ => {}

namespace world

/-- The statement `ev->next_.store(head)` of `context::schedule`. -/
def store_next (ev : Nat) (head : Option Nat) (w : world) : world :=
  { w with events := Function.update w.events ev { w.events ev with next_ := head } }

/-- The loop of `context::schedule` after the initial load, in a sequential execution:
the weak compare-exchange fails spuriously `spurious` times, each time reloading the
head, and then succeeds. -/
def schedule_loop (ev : Nat) : Nat → Option Nat → world → world
  | 0, head, w =>
    let w1 := w.store_next ev head
    { w1 with ctx := { w1.ctx with head_ := some ev } }
  | spurious + 1, head, w =>
    let w1 := w.store_next ev head
    schedule_loop ev spurious w1.ctx.head_ w1

/-- The method `context::schedule`. -/
def schedule (ev : Nat) (spurious : Nat) (w : world) : world :=
  schedule_loop ev spurious w.ctx.head_ w

/-- The method `context::stop`. -/
def stop (w : world) : world :=
  { w with ctx := { w.ctx with stop_ := true } }

/-- The method `context::is_current`, called on thread `t`. -/
def is_current (w : world) (t : Nat) : Bool :=
  w.ctx.thread_ == some t

/-- The statement `head_.exchange(nullptr)` of `context::run`: the batch taken and the
world afterwards. -/
def take (w : world) : Option Nat × world :=
  (w.ctx.head_, { w with ctx := { w.ctx with head_ := none } })

/-- The first statement of `context::run`, on thread `t`: `thread_.store(get_id())`. -/
def enter (t : Nat) (w : world) : world :=
  { w with ctx := { w.ctx with thread_ := some t } }

end world

/-- What a resumed coroutine does to the context before it suspends again or ends. -/
inductive action where
  | schedule (ev : Nat) (spurious : Nat)
  | stop
  deriving DecidableEq, Repr

/-- The event an action writes to. -/
def action.target : action → Option Nat
  | action.schedule ev _ => some ev
  | action.stop => none

/-- Perform one action. -/
def action.run : action → world → world
  | action.schedule ev spurious, w => w.schedule ev spurious
  | action.stop, w => w.stop

/-- Perform a list of actions in order. -/
def run_actions : List action → world → world
  | [], w => w
  | a :: rest, w => run_actions rest (a.run w)

/-- The method `event::resume`: resumes the coroutine `awaiter_`, whose behaviour is given
by `prog`. -/
def event_resume (prog : Nat → List action) (ev : Nat) (w : world) : world :=
  run_actions (prog (w.events ev).awaiter_) w

/-- The loop `while (head) { next = head->next_; head->resume(); head = next; }` of
`context::run`: the world afterwards and the events resumed, in order. -/
def drain (prog : Nat → List action) : Nat → Option Nat → world → Option (world × List Nat)
  | _, none, w => some (w, [])
  | 0, some _, _ => none
  | fuel + 1, some h, w =>
    let next := (w.events h).next_
    let w1 := event_resume prog h w
    match drain prog fuel next w1 with
    | none => none
    | some r => some (r.1, h :: r.2)

/-- One drain of `context::run`: exchange the head with null, then walk the batch. -/
def drain_once (prog : Nat → List action) (fuel : Nat) (w : world) :
    Option (world × List Nat) :=
  drain prog fuel w.take.1 w.take.2

/-- How the loop of `context::run` ends in a sequential execution: it returns, or it finds
the list empty with the stop flag clear and keeps polling (`cv_.wait` with the predicate
`[]() { return true; }` returns at once) until another thread acts. -/
inductive run_status where
  | returned
  | polling
  deriving DecidableEq, Repr

/-- Result of `context::run`: how it ended, the world, the events resumed in order. -/
structure run_result where
  status : run_status
  w : world
  resumed : List Nat

/-- The outer loop `while (true)` of `context::run`. -/
def run_loop (prog : Nat → List action) : Nat → world → Option run_result
  | 0, _ => none
  | fuel + 1, w =>
    match w.take.1 with
    | none =>
      if w.take.2.ctx.stop_ then
        some { status := run_status.returned, w := w.take.2, resumed := [] }
      else some { status := run_status.polling, w := w.take.2, resumed := [] }
    | some h =>
      match drain prog fuel (some h) w.take.2 with
      | none => none
      | some d =>
        match run_loop prog fuel d.1 with
        | none => none
        | some r => some { r with resumed := d.2 ++ r.resumed }

/-- The method `context::run`, called on thread `t`. -/
def world.run (prog : Nat → List action) (fuel : Nat) (t : Nat) (w : world) :
    Option run_result :=
  run_loop prog fuel (w.enter t)

/-- Call `schedule` for each event of the list, first to last; `spurious e` is the number of
spurious compare-exchange failures met when scheduling `e`. -/
def schedule_all (spurious : Nat → Nat) : List Nat → world → world
  | [], w => w
  | e :: rest, w => schedule_all spurious rest (w.schedule e (spurious e))

/-- The pending list: `linked events head l` says that following the `next_` links from
`head` visits exactly the events of `l`, in order, and ends at null. -/
def linked (events : Nat → event) : Option Nat → List Nat → Bool
  | head, [] => head == none
  | head, e :: rest => head == some e && linked events (events e).next_ rest

/-- The class `ice::schedule`: the address of the object, whose `event` base lives in the
world, and the member `ready_`. -/
structure schedule where
  self : Nat
  ready_ : Bool := true
  deriving DecidableEq, Repr

namespace schedule

/-- The constructor `schedule(context&, bool post)`, run on thread `t` for the object at
address `self`: the base `event` is default-initialised and `ready_` is computed here,
from `is_current()` on the constructing thread. -/
def ctor (self : Nat) (post : Bool) (t : Nat) (w : world) : schedule × world :=
  ({ self := self, ready_ := !post && w.is_current t },
   { w with events := Function.update w.events self {} })

/-- The method `await_ready`. -/
def await_ready (s : schedule) : Bool :=
  s.ready_

/-- The method `await_suspend`. -/
def await_suspend (s : schedule) (awaiter : Nat) (spurious : Nat) (w : world) : world :=
  let w1 : world :=
    { w with events :=
        Function.update w.events s.self { w.events s.self with awaiter_ := awaiter } }
  w1.schedule s.self spurious

/-- The expression `co_await schedule(context, post)` evaluated on thread `t` by the
coroutine `awaiter`: whether the coroutine suspended, and the world afterwards. -/
def co_await (self : Nat) (post : Bool) (t : Nat) (awaiter : Nat) (spurious : Nat)
    (w : world) : Bool × world :=
  let c := ctor self post t w
  if c.1.await_ready then (false, c.2)
  else (true, c.1.await_suspend awaiter spurious c.2)

end schedule

/-- The coroutines awaiting the events of `l` schedule, when resumed, no event of `l`:
their programs write to no event of the batch. -/
def batch_untouched (prog : Nat → List action) (events : Nat → event) (l : List Nat) : Prop :=
  ∀ e ∈ l, ∀ a ∈ prog (events e).awaiter_, ∀ x, a.target = some x → x ∉ l


/-! ## `task.hpp`: the typed promises and the awaitables of `task<T>` -/

namespace detail

/-- The constructor `continuation(coroutine_handle<> awaiter)`: no callback, and the address
of the awaiting coroutine as state. -/
def continuation.from_awaiter (awaiter : Nat) : continuation :=
  { callback_ := 0, state_ := awaiter }

/-- The class `task_promise<T>`: the base and the storage `value_`, in which `none` means
that no object has been constructed yet. -/
structure task_promise (α : Type) extends task_promise_base where
  value_ : Option α := none

/-- The method `task_promise<T>::return_value`, `v` being the object `T(args...)`
constructed in the storage. -/
def task_promise.return_value {α : Type} (p : task_promise α) (v : α) : task_promise α :=
  { p with value_ := some v }

/-- The method `task_promise<T>::result`, for both ref-qualifiers: the object in the
storage; `none` is a read of storage that holds no object. -/
def task_promise.result {α : Type} (p : task_promise α) : Option α :=
  p.value_

/-- The class `task_promise<void>`: the base only. -/
structure task_promise_void extends task_promise_base

/-- The method `task_promise<void>::return_void`. -/
def task_promise_void.return_void (p : task_promise_void) : task_promise_void :=
  p

/-- The method `task_promise<void>::result`. -/
def task_promise_void.result (_p : task_promise_void) : Unit :=
  ()

/-- The class `task_promise<T&>`: the base and the pointer `value_`, which is not
initialised (`none`) until `return_value` runs. Objects are named by their address. -/
structure task_promise_ref extends task_promise_base where
  value_ : Option Nat := none

/-- The method `task_promise<T&>::return_value`: `value_ = std::addressof(value)`. -/
def task_promise_ref.return_value (p : task_promise_ref) (value : Nat) : task_promise_ref :=
  { p with value_ := some value }

/-- The method `task_promise<T&>::result`: `*value_`, the object the pointer refers to. -/
def task_promise_ref.result (p : task_promise_ref) : Option Nat :=
  p.value_

end detail

/-- What `task<T>` uses of its `promise_type`: the `task_promise_base` it derives from. -/
class promise_type (P : Type) where
  base : P → detail.task_promise_base
  with_base : P → detail.task_promise_base → P

/-- The class `task_promise<T>` derives from `task_promise_base`. -/
instance task_promise_is_promise (α : Type) : promise_type (detail.task_promise α) where
  base p := p.totask_promise_base
  with_base p b := { p with totask_promise_base := b }

/-- The class `task_promise<void>` derives from `task_promise_base`. -/
instance task_promise_void_is_promise : promise_type detail.task_promise_void where
  base p := p.totask_promise_base
  with_base p b := { p with totask_promise_base := b }

/-- The class `task_promise<T&>` derives from `task_promise_base`. -/
instance task_promise_ref_is_promise : promise_type detail.task_promise_ref where
  base p := p.totask_promise_base
  with_base p b := { p with totask_promise_base := b }

/-- The end of a coroutine body, `co_await promise.final_suspend()`, on a promise of any
of the three classes. -/
def final_suspend {P : Type} [promise_type P] (p : P) : P :=
  promise_type.with_base p (detail.promise_op.completion.apply (promise_type.base p)).promise

/-- The statement `co_return v;` of a coroutine returning `task<T>`: `return_value(v)`, then
the final suspend. -/
def detail.task_promise.co_return {α : Type} (p : detail.task_promise α) (v : α) :
    detail.task_promise α :=
  final_suspend (p.return_value v)

/-- The statement `co_return;` of a coroutine returning `task<void>`. -/
def detail.task_promise_void.co_return (p : detail.task_promise_void) :
    detail.task_promise_void :=
  final_suspend p.return_void

/-- The statement `co_return value;` of a coroutine returning `task<T&>`. -/
def detail.task_promise_ref.co_return (p : detail.task_promise_ref) (value : Nat) :
    detail.task_promise_ref :=
  final_suspend (p.return_value value)

/-- The struct `task<T>::awaitable_base`, base of the three awaitables. -/
structure awaitable_base where
  coroutine_ : Option Nat
  deriving DecidableEq, Repr

/-- The operator `co_await() const&`: `awaitable{ coroutine_ }`. -/
def task.co_await_lvalue (t : task) : awaitable_base :=
  { coroutine_ := t.coroutine_ }

/-- The operator `co_await() const&&`: `awaitable{ coroutine_ }`. -/
def task.co_await_rvalue (t : task) : awaitable_base :=
  { coroutine_ := t.coroutine_ }

/-- The method `when_ready`: `awaitable{ coroutine_ }`. -/
def task.when_ready (t : task) : awaitable_base :=
  { coroutine_ := t.coroutine_ }

/-- What evaluating a `co_await` expression on a task did: whether `await_suspend`, and
with it `try_await`, was called, whether the awaiting coroutine stays suspended, and the
promises afterwards. -/
structure await_outcome (P : Type) where
  suspend_called : Bool
  suspended : Bool
  promises : Nat → P

namespace awaitable_base

/-- The method `await_ready`: `!coroutine_ || coroutine_.promise().is_ready()`. -/
def await_ready {P : Type} [promise_type P] (a : awaitable_base) (ps : Nat → P) : Bool :=
  match a.coroutine_ with
  | none => true
  | some h => (promise_type.base (ps h)).is_ready

/-- The method `await_suspend`: `coroutine_.promise().try_await(continuation{ awaiter })`;
`none` is the dereference of a null handle. -/
def await_suspend {P : Type} [promise_type P] (a : awaitable_base) (awaiter : Nat)
    (ps : Nat → P) : Option (Bool × (Nat → P)) :=
  match a.coroutine_ with
  | none => none
  | some h =>
    let r := (promise_type.base (ps h)).try_await (detail.continuation.from_awaiter awaiter)
    some (r.1, Function.update ps h (promise_type.with_base (ps h) r.2))

/-- The evaluation of `co_await` up to the point where the awaiting coroutine either goes
on or stays suspended: `await_suspend` is called only when `await_ready` answered false,
and the coroutine stays suspended only when `await_suspend` answered true. -/
def co_await {P : Type} [promise_type P] (a : awaitable_base) (awaiter : Nat)
    (ps : Nat → P) : Option (await_outcome P) :=
  if a.await_ready ps then
    some { suspend_called := false, suspended := false, promises := ps }
  else
    match a.await_suspend awaiter ps with
    | none => none
    | some r => some { suspend_called := true, suspended := r.1, promises := r.2 }

/-- The `await_resume` of both `operator co_await` awaitables of `task<T>`:
`assert(coroutine_)`, then the promise's `result()`; `none` is the failed assertion or a
read of storage that holds no object. -/
def await_resume {α : Type} (a : awaitable_base) (ps : Nat → detail.task_promise α) :
    Option α :=
  match a.coroutine_ with
  | none => none
  | some h => (ps h).result

/-- The `await_resume` of both `operator co_await` awaitables of `task<void>`; `none` is
the failed assertion. -/
def await_resume_void (a : awaitable_base) (ps : Nat → detail.task_promise_void) :
    Option Unit :=
  match a.coroutine_ with
  | none => none
  | some h => some (ps h).result

/-- The `await_resume` of both `operator co_await` awaitables of `task<T&>`; `none` is the
failed assertion or the dereference of the uninitialised pointer. -/
def await_resume_ref (a : awaitable_base) (ps : Nat → detail.task_promise_ref) :
    Option Nat :=
  match a.coroutine_ with
  | none => none
  | some h => (ps h).result

/-- The `await_resume` of the awaitable of `when_ready`, which returns nothing. -/
def when_ready_await_resume (_a : awaitable_base) : Unit :=
  ()

end awaitable_base

/-! ## `context::run`: the idle wait -/

/-- The call `cv.wait(lock, pred)` of `std::condition_variable`, which the C++ standard
defines as `while (!pred()) wait(lock);`. `pred k` is the answer of the predicate at its
`k`-th evaluation and `wakeups` the number of wake-ups that will arrive. The result is the
number of blocking waits entered, and whether the call returned. -/
def cv_wait (pred : Nat → Bool) : Nat → Nat → Nat × Bool
  | 0, k => if pred k then (0, true) else (1, false)
  | wakeups + 1, k =>
    if pred k then (0, true)
    else ((cv_wait pred wakeups (k + 1)).1 + 1, (cv_wait pred wakeups (k + 1)).2)

/-- The predicate that `context::run` passes to `cv_.wait`: `[]() { return true; }`. -/
def run_wait_predicate : Nat → Bool :=
  fun _ => true

/-- How the idle loop of `context::run` stands: it found a batch, it returned because the
stop flag was set, it is blocked inside `cv_.wait` for good, or it is still polling when
the fuel ends. -/
inductive idle_status where
  | found
  | stopped
  | blocked
  | polling
  deriving DecidableEq, Repr

/-- The idle loop so far: the world, the head found, the number of `head_.exchange` calls
made inside the loop and the number of blocking waits entered. -/
structure idle_result where
  status : idle_status
  w : world
  head : Option Nat
  polls : Nat
  blocking_waits : Nat

/-- The loop `while (!head) { if (stop_) return; cv_.wait(lock, pred); head =
head_.exchange(nullptr); }` of `context::run`, entered with a null `head`. `others k` is
what other threads do to the context between the `k`-th load of the stop flag and the
exchange that follows it, `wakeups k` the wake-ups that arrive meanwhile. -/
def idle_loop (others : Nat → List action) (wakeups : Nat → Nat) :
    Nat → Nat → world → idle_result
  | 0, _, w =>
    { status := idle_status.polling, w := w, head := none, polls := 0, blocking_waits := 0 }
  | fuel + 1, k, w =>
    if w.ctx.stop_ then
      { status := idle_status.stopped, w := w, head := none, polls := 0, blocking_waits := 0 }
    else
      let c := cv_wait run_wait_predicate (wakeups k) 0
      if !c.2 then
        { status := idle_status.blocked, w := w, head := none, polls := 0,
          blocking_waits := c.1 }
      else
        let t := (run_actions (others k) w).take
        match t.1 with
        | some h =>
          { status := idle_status.found, w := t.2, head := some h, polls := 1,
            blocking_waits := c.1 }
        | none =>
          let r := idle_loop others wakeups fuel (k + 1) t.2
          { r with polls := r.polls + 1, blocking_waits := r.blocking_waits + c.1 }

end ice

/-! ## `dialog.hpp`: the message-loop-backed resumption target -/

namespace winuser

/-- Message numbers of the Windows SDK header `winuser.h`, which the repository includes
but does not contain. -/
def WM_DESTROY : Nat := 0x0002

/-- See `WM_DESTROY`. -/
def WM_SIZE : Nat := 0x0005

/-- See `WM_DESTROY`. -/
def WM_CLOSE : Nat := 0x0010

/-- See `WM_DESTROY`. -/
def WM_GETMINMAXINFO : Nat := 0x0024

/-- See `WM_DESTROY`. -/
def WM_INITDIALOG : Nat := 0x0110

/-- See `WM_DESTROY`. -/
def WM_COMMAND : Nat := 0x0111

/-- See `WM_DESTROY`. -/
def WM_CTLCOLORDLG : Nat := 0x0136

/-- See `WM_DESTROY`. -/
def WM_DPICHANGED : Nat := 0x02E0

/-- See `WM_DESTROY`. -/
def WM_USER : Nat := 0x0400

/-- The macro `LOWORD`. -/
def LOWORD (x : Nat) : Nat := x % 65536

/-- The macro `HIWORD`. -/
def HIWORD (x : Nat) : Nat := x / 65536 % 65536

end winuser

/-- The constant `WM_DIALOG_CREATE = WM_USER + 1`. -/
def WM_DIALOG_CREATE : Nat := winuser.WM_USER + 1

/-- The constant `WM_DIALOG_RESUME = WM_USER + 2`. -/
def WM_DIALOG_RESUME : Nat := winuser.WM_USER + 2

namespace Dialog

/-- A window message: the arguments of `PostMessage` and of the window procedure. -/
structure message where
  hwnd : Nat
  msg : Nat
  wparam : Nat
  lparam : Nat
  deriving DecidableEq, Repr

/-- The data members of `Dialog::Schedule`; handles and pointers are numbers, `0` being
null. -/
structure Schedule where
  hwnd_ : Nat
  coroutine_ : Nat := 0
  deriving DecidableEq, Repr

namespace Schedule

/-- The method `await_ready`: `GetCurrentThreadId() == GetWindowThreadProcessId(hwnd_)`,
the two thread identifiers being given. -/
def await_ready (_s : Schedule) (current_thread window_thread : Nat) : Bool :=
  current_thread == window_thread

/-- The method `await_suspend` of the object at address `self`: the object afterwards and
the message handed to `PostMessage`. -/
def await_suspend (s : Schedule) (self : Nat) (coroutine : Nat) : Schedule × message :=
  ({ s with coroutine_ := coroutine },
   { hwnd := s.hwnd_, msg := WM_DIALOG_CREATE, wparam := 0, lparam := self })

/-- The method `resume`: the coroutine handle that is resumed. -/
def resume (s : Schedule) : Nat :=
  s.coroutine_

end Schedule

/-- What a call of `Dialog::Proc` does, in order. -/
inductive effect where
  | set_user_data (hwnd : Nat) (value : Nat)
  | post (m : message)
  | set_hwnd (hwnd : Nat)
  | OnDialogCreate
  | OnDialogClose
  | OnDialogDestroy
  | OnDialogSize (cx : Nat) (cy : Nat)
  | OnDialogDpiChanged (dpi : Nat) (rc : Nat)
  | OnDialogGetMinMaxInfo (mm : Nat)
  | OnDialogCommand (code : Nat) (id : Nat) (hwnd : Nat)
  | GetStockObject
  | resume (coroutine : Nat)
  deriving DecidableEq, Repr

/-- Values that `Dialog::Proc` passes on from code outside `Proc`: the results of the two
handlers that ask the derived class, and the brush of `GetStockObject`. -/
structure handler_results where
  get_min_max_info : Nat := 1
  command : Nat := 0
  stock_object : Nat := 0

/-- The static method `Dialog::Proc`. `user_data` is the value of
`GetWindowLongPtr(hwnd, GWLP_USERDATA)`, `schedules` the `Schedule` objects in memory by
address. The result is the returned `INT_PTR` and what was done. -/
def Proc (env : handler_results) (user_data : Nat) (schedules : Nat → Schedule)
    (m : message) : Nat × List effect :=
  if m.msg = winuser.WM_INITDIALOG then
    (0, [effect.set_user_data m.hwnd m.lparam,
         effect.post { hwnd := m.hwnd, msg := WM_DIALOG_CREATE, wparam := 0, lparam := 0 }])
  else if user_data ≠ 0 then
    if m.msg = WM_DIALOG_CREATE then
      (1, [effect.set_hwnd m.hwnd, effect.OnDialogCreate])
    else if m.msg = winuser.WM_CLOSE then (1, [effect.OnDialogClose])
    else if m.msg = winuser.WM_DESTROY then (1, [effect.OnDialogDestroy])
    else if m.msg = winuser.WM_SIZE then
      (1, [effect.OnDialogSize (winuser.LOWORD m.lparam) (winuser.HIWORD m.lparam)])
    else if m.msg = winuser.WM_DPICHANGED then
      (1, [effect.OnDialogDpiChanged (winuser.HIWORD m.wparam) m.lparam])
    else if m.msg = winuser.WM_GETMINMAXINFO then
      (env.get_min_max_info, [effect.OnDialogGetMinMaxInfo m.lparam])
    else if m.msg = winuser.WM_COMMAND then
      (env.command,
       [effect.OnDialogCommand (winuser.HIWORD m.wparam) (winuser.LOWORD m.wparam) m.lparam])
    else if m.msg = winuser.WM_CTLCOLORDLG then (env.stock_object, [effect.GetStockObject])
    else if m.msg = WM_DIALOG_RESUME then
      if m.lparam ≠ 0 then (1, [effect.resume (schedules m.lparam).resume])
      else (1, [])
    else (0, [])
  else (0, [])

end Dialog

namespace ice

open detail

/-! ## Theorems about the promise state machine -/

theorem race_inv_init (c : continuation) : race_inv c race_init := by
  simp [race_inv, race_init]

theorem race_inv_step (c : continuation) (who : side) (s : race) (h : race_inv c s) :
    race_inv c (race_step c who s) := by
  obtain ⟨⟨st, k⟩, cp, pp, log⟩ := s
  cases who <;> cases cp <;> cases pp <;> cases st <;>
    simp_all [race_inv, race_step, consumer_step, completion_step,
      task_promise_base.is_ready, task_promise_base.store_continuation,
      task_promise_base.await_cas, task_promise_base.final_await_ready,
      task_promise_base.final_await_suspend, atomic_exchange, compare_exchange_strong]

theorem race_inv_run (c : continuation) (sched : List side) (s : race) (h : race_inv c s) :
    race_inv c (race_run c sched s) := by
  induction sched generalizing s with
  | nil => simpa [race_run] using h
  | cons who rest ih => exact ih _ (race_inv_step c who s h)


theorem consumer_rank_step (c : continuation) (who : side) (s : race) :
    s.consumer.rank ≤ (race_step c who s).consumer.rank ∧
    (who = side.consumer →
      min 3 (s.consumer.rank + 1) ≤ (race_step c who s).consumer.rank) := by
  obtain ⟨⟨st, k⟩, cp, pp, log⟩ := s
  cases who <;> cases cp <;> cases pp <;> cases st <;>
    simp [race_step, consumer_step, completion_step, consumer_pc.rank,
      task_promise_base.is_ready, task_promise_base.store_continuation,
      task_promise_base.await_cas, task_promise_base.final_await_ready,
      task_promise_base.final_await_suspend, atomic_exchange, compare_exchange_strong]

theorem completion_rank_step (c : continuation) (who : side) (s : race) :
    s.completion.rank ≤ (race_step c who s).completion.rank ∧
    (who = side.completion →
      min 2 (s.completion.rank + 1) ≤ (race_step c who s).completion.rank) := by
  obtain ⟨⟨st, k⟩, cp, pp, log⟩ := s
  cases who <;> cases cp <;> cases pp <;> cases st <;>
    simp [race_step, consumer_step, completion_step, completion_pc.rank,
      task_promise_base.is_ready, task_promise_base.store_continuation,
      task_promise_base.await_cas, task_promise_base.final_await_ready,
      task_promise_base.final_await_suspend, atomic_exchange, compare_exchange_strong]

theorem consumer_rank_run (c : continuation) (sched : List side) (s : race) :
    min 3 (s.consumer.rank + sched.count side.consumer) ≤
      (race_run c sched s).consumer.rank := by
  induction sched generalizing s with
  | nil => simp [race_run]
  | cons who rest ih =>
    have h := consumer_rank_step c who s
    have h2 := ih (race_step c who s)
    simp only [race_run]
    by_cases hw : who = side.consumer
    · have h3 := h.2 hw
      subst hw
      simp only [List.count_cons_self]
      omega
    · have hne : (who == side.consumer) = false := by simpa using hw
      simp only [List.count_cons, hne, Bool.false_eq_true, if_false, Nat.add_zero]
      omega

theorem completion_rank_run (c : continuation) (sched : List side) (s : race) :
    min 2 (s.completion.rank + sched.count side.completion) ≤
      (race_run c sched s).completion.rank := by
  induction sched generalizing s with
  | nil => simp [race_run]
  | cons who rest ih =>
    have h := completion_rank_step c who s
    have h2 := ih (race_step c who s)
    simp only [race_run]
    by_cases hw : who = side.completion
    · have h3 := h.2 hw
      subst hw
      simp only [List.count_cons_self]
      omega
    · have hne : (who == side.completion) = false := by simpa using hw
      simp only [List.count_cons, hne, Bool.false_eq_true, if_false, Nat.add_zero]
      omega

theorem consumer_rank_done (x : consumer_pc) (h : 3 ≤ x.rank) : x = consumer_pc.done := by
  cases x <;> simp [consumer_pc.rank] at h ⊢

theorem completion_rank_done (x : completion_pc) (h : 2 ≤ x.rank) :
    x = completion_pc.done := by
  cases x <;> simp [completion_pc.rank] at h ⊢


/-- C1 (exactly-once resumption). For every schedule interleaving the atomic steps of one
registration of continuation `c` with those of one completion, on a task that starts in
`running`: at no point has more than one resumption happened; once both sides are done the
log holds exactly one resumption, that of `c`, performed either inline by the registering
side or by the completing side; and every schedule that gives the registering side three
steps and the completing side two brings both to the end. -/
theorem exactly_once_resumption (c : continuation) (sched : List side) :
    (race_run c sched race_init).log.length ≤ 1 ∧
    ((race_run c sched race_init).consumer = consumer_pc.done →
      (race_run c sched race_init).completion = completion_pc.done →
        (race_run c sched race_init).log = [(side.consumer, c.resume)] ∨
        (race_run c sched race_init).log = [(side.completion, c.resume)]) ∧
    (3 ≤ sched.count side.consumer → 2 ≤ sched.count side.completion →
      (race_run c sched race_init).consumer = consumer_pc.done ∧
      (race_run c sched race_init).completion = completion_pc.done) := by
  have hinv := race_inv_run c sched race_init (race_inv_init c)
  refine ⟨?_, ?_, ?_⟩
  · rcases hinv with h | h | h
    · simp [h.2.1]
    · simp [h.2.2.2.2]
    · rcases h.2.2.2 with h1 | h1 <;> simp [h1]
  · intro hc hp
    rcases hinv with h | h | h
    · exact absurd hc h.1
    · exact absurd hp h.2.1
    · exact h.2.2.2
  · intro hc hp
    have h1 := consumer_rank_run c sched race_init
    have h2 := completion_rank_run c sched race_init
    refine ⟨consumer_rank_done _ ?_, completion_rank_done _ ?_⟩
    · have e : race_init.consumer.rank = 0 := rfl
      rw [e] at h1
      omega
    · have e : race_init.completion.rank = 0 := rfl
      rw [e] at h2
      omega

/-- Witness for C1: the registration wins the race against a completion that has already
loaded the state, and the completing side resumes the stored continuation. -/
theorem exactly_once_resumption_witness :
    (race_run { callback_ := 0, state_ := 7 }
        [side.consumer, side.completion, side.consumer, side.consumer, side.completion]
        race_init).consumer = consumer_pc.done ∧
    (race_run { callback_ := 0, state_ := 7 }
        [side.consumer, side.completion, side.consumer, side.consumer, side.completion]
        race_init).completion = completion_pc.done ∧
    (race_run { callback_ := 0, state_ := 7 }
        [side.consumer, side.completion, side.consumer, side.consumer, side.completion]
        race_init).log = [(side.completion, resumption.coroutine 7)] :=
  have h := (exactly_once_resumption { callback_ := 0, state_ := 7 }
    [side.consumer, side.completion, side.consumer, side.consumer, side.completion]).2.2
    (by decide) (by decide)
  ⟨h.1, h.2, by decide⟩

/-- C2 (completion step). The `await_suspend` of `final_suspend` exchanges the state to
`finished` and branches on the previous state: from `consumer_suspended` it resumes the
stored continuation once and returns true; from `consumer_detached` it resumes nothing and
returns false; from `running` it resumes nothing and returns true; afterwards `is_ready`
is true and every `try_await` returns false. -/
theorem completion_step_branches (k : continuation) :
    task_promise_base.final_await_suspend
        { state_ := state.consumer_suspended, continuation_ := k } =
      (true, { state_ := state.finished, continuation_ := k }, [k.resume]) ∧
    task_promise_base.final_await_suspend
        { state_ := state.consumer_detached, continuation_ := k } =
      (false, { state_ := state.finished, continuation_ := k }, []) ∧
    task_promise_base.final_await_suspend
        { state_ := state.running, continuation_ := k } =
      (true, { state_ := state.finished, continuation_ := k }, []) ∧
    (∀ p : task_promise_base,
      p.final_await_suspend.2.1.is_ready = true ∧
      ∀ c : continuation, (p.final_await_suspend.2.1.try_await c).1 = false) := by
  refine ⟨by simp [task_promise_base.final_await_suspend, atomic_exchange],
    by simp [task_promise_base.final_await_suspend, atomic_exchange],
    by simp [task_promise_base.final_await_suspend, atomic_exchange], ?_⟩
  intro p
  simp [task_promise_base.final_await_suspend, atomic_exchange, task_promise_base.is_ready,
    task_promise_base.try_await, task_promise_base.await_cas,
    task_promise_base.store_continuation, compare_exchange_strong]

/-- C3 (`try_await`). The call stores `c` as the promise's continuation in every case,
returns true exactly when the state was `running`, then leaving `consumer_suspended`;
when it returns false the state is unchanged, so a finished promise stays finished; and
the call performs no resumption itself. -/
theorem try_await_contract (p : task_promise_base) (c : continuation) :
    (p.try_await c).2.continuation_ = c ∧
    ((p.try_await c).1 = true ↔ p.state_ = state.running) ∧
    ((p.try_await c).1 = true → (p.try_await c).2.state_ = state.consumer_suspended) ∧
    ((p.try_await c).1 = false → (p.try_await c).2.state_ = p.state_) ∧
    (p.is_ready = true → (p.try_await c).1 = false ∧ (p.try_await c).2.is_ready = true) ∧
    ((promise_op.try_await c).apply p).resumed = [] ∧
    ((promise_op.try_await c).apply p).returned = (p.try_await c).1 ∧
    ((promise_op.try_await c).apply p).promise = (p.try_await c).2 := by
  obtain ⟨st, k⟩ := p
  cases st <;>
    simp [task_promise_base.try_await, task_promise_base.await_cas,
      task_promise_base.store_continuation, compare_exchange_strong,
      task_promise_base.is_ready, promise_op.apply]

/-- Witness for C3: a running promise takes the continuation and parks the consumer; a
finished promise answers false and stays finished. -/
theorem try_await_contract_witness :
    (task_promise_base.try_await {} { callback_ := 3, state_ := 4 }).2.state_ =
      state.consumer_suspended ∧
    (task_promise_base.try_await { state_ := state.finished }
        { callback_ := 3, state_ := 4 }).2.state_ = state.finished :=
  ⟨(try_await_contract {} { callback_ := 3, state_ := 4 }).2.2.1 (by decide),
   (try_await_contract { state_ := state.finished } { callback_ := 3, state_ := 4 }).2.2.2.1
     (by decide)⟩

/-- C4, counterexample. Completing a running promise and then calling `try_detach` moves
the state from `finished` to `consumer_detached`, a change that is none of the allowed
ones. -/
theorem try_detach_leaves_finished :
    (run_ops [promise_op.completion] {}).state_ = state.finished ∧
    (run_ops [promise_op.completion, promise_op.try_detach] {}).state_ =
      state.consumer_detached ∧
    (promise_op.try_detach.apply (run_ops [promise_op.completion] {})).returned = false ∧
    spec_transition (run_ops [promise_op.completion] {}).state_
      (run_ops [promise_op.completion, promise_op.try_detach] {}).state_ = false := by
  decide

/-- C4, amended (state monotonicity). For every sequence of operations applied to a
promise that starts in `running` and every operation that follows it: the state after the
operation is never `running`; `try_await` changes the state only from `running` to
`consumer_suspended`; completion ends in `finished` (or leaves `consumer_detached` alone
when its `await_ready` saw it); `try_await` and completion leave a finished promise
finished; and `try_detach` stores `consumer_detached` whatever the state was, returning
true exactly when it was `running`. Every change other than those of `try_detach` is one
the specification allows. -/
theorem state_monotone_amended (pre : List promise_op) (o : promise_op) :
    (o.apply (run_ops pre {})).promise.state_ ≠ state.running ∧
    code_transition o (run_ops pre {}).state_ (o.apply (run_ops pre {})).promise.state_ = true ∧
    (o ≠ promise_op.try_detach →
      spec_transition (run_ops pre {}).state_ (o.apply (run_ops pre {})).promise.state_
        = true) ∧
    (o ≠ promise_op.try_detach → (run_ops pre {}).state_ = state.finished →
      (o.apply (run_ops pre {})).promise.state_ = state.finished) ∧
    (o = promise_op.try_detach →
      (o.apply (run_ops pre {})).promise.state_ = state.consumer_detached ∧
      ((o.apply (run_ops pre {})).returned = true ↔
        (run_ops pre {}).state_ = state.running)) := by
  generalize run_ops pre {} = p
  obtain ⟨st, k⟩ := p
  cases o <;> cases st <;>
    simp [promise_op.apply, code_transition, spec_transition, task_promise_base.try_await,
      task_promise_base.await_cas, task_promise_base.store_continuation,
      compare_exchange_strong, task_promise_base.try_detach, atomic_exchange,
      task_promise_base.final_await_ready, task_promise_base.final_await_suspend]

/-- Witness for C4 amended: after a completion, `try_await` leaves the promise finished. -/
theorem state_monotone_amended_witness :
    ((promise_op.try_await { callback_ := 1, state_ := 2 }).apply
      (run_ops [promise_op.completion] {})).promise.state_ = state.finished :=
  (state_monotone_amended [promise_op.completion]
    (promise_op.try_await { callback_ := 1, state_ := 2 })).2.2.2.1 (by decide) (by decide)

/-! ## Theorems about `task<T>` -/

/-- C6 (destroy before finish is fatal). Releasing a task's frame, by the destructor or by
move assignment from a different task object, terminates exactly when the task holds a
frame whose promise is not finished; when the frame is finished it is destroyed, once,
without terminating; when the task holds no frame nothing changes; after a move
assignment the target holds the source's frame and the source none; and a
default-constructed, a moved-from and a detached task hold no frame. -/
theorem destroy_before_finish_fatal (t : task) (fr : frames) (m : heap) (self other : Nat) :
    (t.dtor fr = none ↔
      ∃ h, t.coroutine_ = some h ∧ (fr.promise h).state_ ≠ state.finished) ∧
    (∀ h, t.coroutine_ = some h → (fr.promise h).state_ = state.finished →
      t.dtor fr = some { fr with destroyed := fr.destroyed ++ [h] }) ∧
    (t.coroutine_ = none → t.dtor fr = some fr) ∧
    (other ≠ self →
      (task.move_assign self other m = none ↔
        ∃ h, (m.tasks self).coroutine_ = some h ∧
          (m.fr.promise h).state_ ≠ state.finished)) ∧
    (other ≠ self → ∀ m1, task.move_assign self other m = some m1 →
      (m.tasks self).dtor m.fr = some m1.fr ∧
      (m1.tasks self).coroutine_ = (m.tasks other).coroutine_ ∧
      (m1.tasks other).coroutine_ = none) ∧
    task.default_ctor.coroutine_ = none ∧
    (task.move_ctor t).2.coroutine_ = none ∧
    (t.detach fr).1.coroutine_ = none := by
  have key : ∀ (u : task) (g : frames),
      (u.destroy g = none ↔
        ∃ h, u.coroutine_ = some h ∧ (g.promise h).state_ ≠ state.finished) := by
    intro u g
    obtain ⟨uc⟩ := u
    cases uc with
    | none => simp [task.destroy]
    | some h => simp [task.destroy, task_promise_base.is_ready]
  refine ⟨key t fr, ?_, ?_, ?_, ?_, rfl, rfl, ?_⟩
  · intro h ht hfin
    simp [task.dtor, task.destroy, ht, task_promise_base.is_ready, hfin]
  · intro ht
    simp [task.dtor, task.destroy, ht]
  · intro hne
    rw [← key (m.tasks self) m.fr]
    unfold task.move_assign
    rw [if_pos hne]
    cases hd : (m.tasks self).destroy m.fr <;> simp
  · intro hne m1 hm
    unfold task.move_assign at hm
    rw [if_pos hne] at hm
    cases hd : (m.tasks self).destroy m.fr with
    | none => simp [hd] at hm
    | some fr1 =>
      simp only [hd, Option.some.injEq] at hm
      subst hm
      refine ⟨by simp [task.dtor, hd], ?_, ?_⟩
      · simp [Function.update, hne.symm]
      · simp [Function.update]
  · obtain ⟨tc⟩ := t
    cases tc <;> simp [task.detach]

/-- Witness for C6: the destructor of a task that holds the finished frame 1 destroys
that frame and does not terminate. -/
theorem destroy_before_finish_fatal_witness :
    (task.from_handle 1).dtor
        { promise := fun h => if h = 1 then { state_ := state.finished } else {},
          destroyed := [] } =
      some { promise := fun h => if h = 1 then { state_ := state.finished } else {},
             destroyed := [] ++ [1] } :=
  (destroy_before_finish_fatal (task.from_handle 1)
    { promise := fun h => if h = 1 then { state_ := state.finished } else {},
      destroyed := [] }
    { tasks := fun _ => {}, fr := { promise := fun _ => {}, destroyed := [] } } 0 0).2.1
    1 rfl rfl

/-! ## Theorems about the context -/

theorem schedule_loop_eq (ev : Nat) (n : Nat) (w : world) :
    world.schedule_loop ev n w.ctx.head_ w =
      { ctx := { w.ctx with head_ := some ev },
        events := Function.update w.events ev { w.events ev with next_ := w.ctx.head_ } } := by
  induction n generalizing w with
  | zero => simp [world.schedule_loop, world.store_next]
  | succ n ih =>
    have h := ih (w.store_next ev w.ctx.head_)
    simp only [world.schedule_loop]
    rw [h]
    simp [world.store_next]

theorem schedule_eq (ev : Nat) (n : Nat) (w : world) :
    w.schedule ev n =
      { ctx := { w.ctx with head_ := some ev },
        events := Function.update w.events ev { w.events ev with next_ := w.ctx.head_ } } := by
  simp [world.schedule, schedule_loop_eq]

theorem linked_congr (ev1 ev2 : Nat → event) (l : List Nat) (head : Option Nat)
    (h : ∀ e ∈ l, ev1 e = ev2 e) : linked ev1 head l = linked ev2 head l := by
  induction l generalizing head with
  | nil => simp [linked]
  | cons e rest ih =>
    simp only [linked]
    rw [h e (List.mem_cons_self e rest)]
    rw [ih _ (fun x hx => h x (List.mem_cons_of_mem e hx))]

theorem action_run_events (a : action) (w : world) (e : Nat) (h : a.target ≠ some e) :
    (a.run w).events e = w.events e := by
  cases a with
  | schedule ev n =>
    have hne : e ≠ ev := by
      intro he
      apply h
      simp [action.target, he]
    simp [action.run, schedule_eq, Function.update, hne]
  | stop => simp [action.run, world.stop]

theorem action_run_ctx (a : action) (w : world) :
    (a.run w).ctx.thread_ = w.ctx.thread_ ∧
    (w.ctx.stop_ = true → (a.run w).ctx.stop_ = true) := by
  cases a with
  | schedule ev n => simp [action.run, schedule_eq]
  | stop => simp [action.run, world.stop]

theorem run_actions_events (acts : List action) (w : world) (e : Nat)
    (h : ∀ a ∈ acts, a.target ≠ some e) : (run_actions acts w).events e = w.events e := by
  induction acts generalizing w with
  | nil => simp [run_actions]
  | cons a rest ih =>
    simp only [run_actions]
    rw [ih _ (fun x hx => h x (List.mem_cons_of_mem a hx))]
    exact action_run_events a w e (h a (List.mem_cons_self a rest))

theorem run_actions_ctx (acts : List action) (w : world) :
    (run_actions acts w).ctx.thread_ = w.ctx.thread_ ∧
    (w.ctx.stop_ = true → (run_actions acts w).ctx.stop_ = true) := by
  induction acts generalizing w with
  | nil => simp [run_actions]
  | cons a rest ih =>
    simp only [run_actions]
    have h1 := ih (a.run w)
    have h2 := action_run_ctx a w
    exact ⟨h1.1.trans h2.1, fun hs => h1.2 (h2.2 hs)⟩

theorem drain_linked (prog : Nat → List action) (l : List Nat) :
    ∀ (fuel : Nat) (head : Option Nat) (w : world),
      linked w.events head l = true → l.length ≤ fuel →
      batch_untouched prog w.events l →
      ∃ w1, drain prog fuel head w = some (w1, l) ∧
        w1.ctx.thread_ = w.ctx.thread_ ∧ (w.ctx.stop_ = true → w1.ctx.stop_ = true) := by
  induction l with
  | nil =>
    intro fuel head w hl _ _
    simp only [linked, beq_iff_eq] at hl
    subst hl
    exact ⟨w, by cases fuel <;> simp [drain], rfl, fun h => h⟩
  | cons e rest ih =>
    intro fuel head w hl hf hp
    simp only [linked, Bool.and_eq_true, beq_iff_eq] at hl
    obtain ⟨hh, hrest⟩ := hl
    subst hh
    cases fuel with
    | zero => simp at hf
    | succ fuel =>
      have hf1 : rest.length ≤ fuel := by
        simp only [List.length_cons] at hf
        omega
      have hsame : ∀ x ∈ e :: rest, (event_resume prog e w).events x = w.events x := by
        intro x hx
        apply run_actions_events
        intro a ha hax
        exact hp e (List.mem_cons_self e rest) a ha x hax hx
      have hsame1 : ∀ x ∈ rest, (event_resume prog e w).events x = w.events x :=
        fun x hx => hsame x (List.mem_cons_of_mem e hx)
      have hl1 : linked (event_resume prog e w).events (w.events e).next_ rest = true := by
        rw [linked_congr _ _ rest _ hsame1]
        exact hrest
      have hp1 : batch_untouched prog (event_resume prog e w).events rest := by
        intro y hy a ha x hax hxr
        rw [hsame1 y hy] at ha
        exact hp y (List.mem_cons_of_mem e hy) a ha x hax (List.mem_cons_of_mem e hxr)
      obtain ⟨w1, hd, ht, hs⟩ := ih fuel (w.events e).next_ (event_resume prog e w) hl1 hf1 hp1
      have hc := run_actions_ctx (prog (w.events e).awaiter_) w
      refine ⟨w1, ?_, ?_, ?_⟩
      · simp only [drain, hd]
      · exact ht.trans hc.1
      · exact fun h => hs (hc.2 h)

theorem schedule_all_linked (spurious : Nat → Nat) (es : List Nat) :
    ∀ (w : world) (l : List Nat),
      linked w.events w.ctx.head_ l = true → (∀ e ∈ es, e ∉ l) → es.Nodup →
      linked (schedule_all spurious es w).events (schedule_all spurious es w).ctx.head_
          (es.reverse ++ l) = true ∧
        (∀ e, ((schedule_all spurious es w).events e).awaiter_ = (w.events e).awaiter_) ∧
        (schedule_all spurious es w).ctx.stop_ = w.ctx.stop_ ∧
        (schedule_all spurious es w).ctx.thread_ = w.ctx.thread_ := by
  induction es with
  | nil =>
    intro w l hl _ _
    simpa [schedule_all] using hl
  | cons e rest ih =>
    intro w l hl hdis hnd
    have hel : e ∉ l := hdis e (List.mem_cons_self e rest)
    have hnd1 := List.nodup_cons.mp hnd
    have hl1 : linked (w.schedule e (spurious e)).events (w.schedule e (spurious e)).ctx.head_
        (e :: l) = true := by
      rw [schedule_eq]
      simp only [linked, beq_self_eq_true, Bool.true_and, Function.update_same]
      rw [linked_congr _ w.events l _ ?_]
      · exact hl
      · intro x hx
        have hne : x ≠ e := fun hxe => hel (hxe ▸ hx)
        simp [Function.update, hne]
    have hdis1 : ∀ x ∈ rest, x ∉ e :: l := by
      intro x hx hxl
      rcases List.mem_cons.mp hxl with h | h
      · exact hnd1.1 (h ▸ hx)
      · exact hdis x (List.mem_cons_of_mem e hx) h
    obtain ⟨h1, h2, h3, h4⟩ := ih (w.schedule e (spurious e)) (e :: l) hl1 hdis1 hnd1.2
    refine ⟨?_, ?_, ?_, ?_⟩
    · simpa [schedule_all, List.reverse_cons, List.append_assoc] using h1
    · intro x
      simp only [schedule_all]
      rw [h2 x, schedule_eq]
      by_cases hx : x = e
      · subst hx
        simp
      · simp [Function.update, hx]
    · simp only [schedule_all]
      rw [h3, schedule_eq]
    · simp only [schedule_all]
      rw [h4, schedule_eq]

theorem drain_ctx (prog : Nat → List action) :
    ∀ (fuel : Nat) (head : Option Nat) (w : world) (r : world × List Nat),
      drain prog fuel head w = some r →
      r.1.ctx.thread_ = w.ctx.thread_ ∧ (w.ctx.stop_ = true → r.1.ctx.stop_ = true) := by
  intro fuel
  induction fuel with
  | zero =>
    intro head w r h
    cases head with
    | none =>
      simp only [drain, Option.some.injEq] at h
      subst h
      exact ⟨rfl, fun hs => hs⟩
    | some x => simp [drain] at h
  | succ fuel ih =>
    intro head w r h
    cases head with
    | none =>
      simp only [drain, Option.some.injEq] at h
      subst h
      exact ⟨rfl, fun hs => hs⟩
    | some x =>
      simp only [drain] at h
      cases hd : drain prog fuel (w.events x).next_ (event_resume prog x w) with
      | none => simp [hd] at h
      | some d =>
        simp only [hd, Option.some.injEq] at h
        subst h
        have h1 := ih _ _ _ hd
        have h2 := run_actions_ctx (prog (w.events x).awaiter_) w
        exact ⟨h1.1.trans h2.1, fun hs => h1.2 (h2.2 hs)⟩

theorem run_loop_ctx (prog : Nat → List action) :
    ∀ (fuel : Nat) (w : world) (r : run_result),
      run_loop prog fuel w = some r →
      r.w.ctx.thread_ = w.ctx.thread_ ∧ r.w.ctx.head_ = none ∧
      (w.ctx.stop_ = true → r.status = run_status.returned) := by
  intro fuel
  induction fuel with
  | zero =>
    intro w r h
    simp [run_loop] at h
  | succ fuel ih =>
    intro w r h
    simp only [run_loop] at h
    cases hh : w.take.1 with
    | none =>
      simp only [hh] at h
      by_cases hs : w.take.2.ctx.stop_ = true
      · simp only [hs, if_true, Option.some.injEq] at h
        subst h
        simp [world.take]
      · simp only [hs, Bool.false_eq_true, if_false, Option.some.injEq] at h
        subst h
        have hs1 : w.ctx.stop_ = false := by simpa [world.take] using hs
        simp [world.take, hs1]
    | some x =>
      simp only [hh] at h
      cases hd : drain prog fuel (some x) w.take.2 with
      | none => simp [hd] at h
      | some d =>
        simp only [hd] at h
        cases hr : run_loop prog fuel d.1 with
        | none => simp [hr] at h
        | some r1 =>
          simp only [hr, Option.some.injEq] at h
          subst h
          have h1 := ih _ _ hr
          have h2 := drain_ctx prog _ _ _ _ hd
          refine ⟨?_, h1.2.1, ?_⟩
          · exact h1.1.trans (h2.1.trans (by simp [world.take]))
          · intro hs
            exact h1.2.2 (h2.2 (by simpa [world.take] using hs))

theorem run_loop_resumed_front (prog : Nat → List action) (fuel : Nat) (w w1 : world)
    (x : Nat) (l : List Nat) (hh : w.take.1 = some x)
    (hd : drain prog fuel (some x) w.take.2 = some (w1, l)) :
    run_loop prog (fuel + 1) w =
      (run_loop prog fuel w1).map (fun r => { r with resumed := l ++ r.resumed }) := by
  simp only [run_loop, hh, hd]
  cases run_loop prog fuel w1 <;> simp

theorem pending_after_schedules (prog : Nat → List action) (spurious : Nat → Nat)
    (es : List Nat) (w : world) (hempty : w.ctx.head_ = none) (hnd : es.Nodup)
    (hprog : batch_untouched prog w.events es) :
    linked (schedule_all spurious es w).events (schedule_all spurious es w).ctx.head_
        es.reverse = true ∧
      batch_untouched prog (schedule_all spurious es w).events es.reverse ∧
      (schedule_all spurious es w).ctx.stop_ = w.ctx.stop_ ∧
      (schedule_all spurious es w).ctx.thread_ = w.ctx.thread_ := by
  have h0 : linked w.events w.ctx.head_ [] = true := by simp [linked, hempty]
  obtain ⟨h1, h2, h3, h4⟩ :=
    schedule_all_linked spurious es w [] h0 (fun _ _ => List.not_mem_nil _) hnd
  refine ⟨by simpa using h1, ?_, h3, h4⟩
  intro e he a ha x hax hx
  rw [h2 e] at ha
  exact hprog e (List.mem_reverse.mp he) a ha x hax (List.mem_reverse.mp hx)

/-- C7 (batch ordering). Scheduling the distinct events of `es`, in order, onto a context
whose pending list is empty, and then draining once (exchange the head with null, walk
the `next_` links) resumes exactly the events of `es`, each once, in reverse order of
scheduling; this holds whatever the spurious failures of the weak compare-exchange and
whatever the resumed coroutines do, as long as they do not schedule an event of the batch
again, and it takes no more than one unit of fuel per event. -/
theorem batch_is_lifo (prog : Nat → List action) (spurious : Nat → Nat) (es : List Nat)
    (w : world) (fuel : Nat) (hempty : w.ctx.head_ = none) (hnd : es.Nodup)
    (hprog : batch_untouched prog w.events es) (hfuel : es.length ≤ fuel) :
    ∃ w1, drain_once prog fuel (schedule_all spurious es w) = some (w1, es.reverse) := by
  obtain ⟨h1, h2, _, _⟩ := pending_after_schedules prog spurious es w hempty hnd hprog
  obtain ⟨w1, hd, _, _⟩ :=
    drain_linked prog es.reverse fuel (schedule_all spurious es w).take.1
      (schedule_all spurious es w).take.2 (by simpa [world.take] using h1)
      (by simpa using hfuel) (by simpa [world.take] using h2)
  exact ⟨w1, by simpa [drain_once] using hd⟩

/-- Witness for C7: the events 1, 2, 3 scheduled in that order are resumed as 3, 2, 1. -/
theorem batch_is_lifo_witness :
    ∃ w1, drain_once (fun _ => []) 3 (schedule_all (fun _ => 1) [1, 2, 3] {}) =
      some (w1, [3, 2, 1]) :=
  batch_is_lifo (fun _ => []) (fun _ => 1) [1, 2, 3] {} 3 rfl (by decide)
    (fun _ _ _ ha => absurd ha (List.not_mem_nil _)) (by decide)

/-- C8, counterexample. The stop flag is set while event 1 is pending; the coroutine of
event 1 schedules event 2 while the batch is drained; `run()` resumes event 2 as well
before it returns. -/
theorem stop_resumes_events_scheduled_later :
    linked
      (world.stop (schedule_all (fun _ => 0) [1]
        { events := fun e => if e = 1 then { awaiter_ := 100 } else {} })).events
      (world.stop (schedule_all (fun _ => 0) [1]
        { events := fun e => if e = 1 then { awaiter_ := 100 } else {} })).ctx.head_
      [1] = true ∧
    (world.stop (schedule_all (fun _ => 0) [1]
      { events := fun e => if e = 1 then { awaiter_ := 100 } else {} })).ctx.stop_ = true ∧
    ((world.run (fun a => if a = 100 then [action.schedule 2 0] else []) 5 7
      (world.stop (schedule_all (fun _ => 0) [1]
        { events := fun e => if e = 1 then { awaiter_ := 100 } else {} }))).map
      (fun r => (r.status, r.resumed))) = some (run_status.returned, [1, 2]) := by
  decide

/-- C8, amended (graceful stop). With the stop flag set after the distinct events of `es`
were scheduled onto an empty context: when `es` is empty `run()` returns having resumed
nothing; otherwise it first drains that batch, in reverse order of scheduling, and then
goes on as the loop does from the world the drain left, so it returns right after the
batch when nothing was scheduled meanwhile and otherwise drains what was scheduled
meanwhile too; whenever it ends, it has returned, the pending list is empty and the batch
was resumed first. -/
theorem graceful_stop_amended (prog : Nat → List action) (spurious : Nat → Nat)
    (es : List Nat) (w : world) (fuel t : Nat) (hempty : w.ctx.head_ = none)
    (hnd : es.Nodup) (hprog : batch_untouched prog w.events es) (hfuel : es.length ≤ fuel) :
    (es = [] → ∃ r, (schedule_all spurious es w).stop.run prog (fuel + 1) t = some r ∧
      r.status = run_status.returned ∧ r.resumed = []) ∧
    (es ≠ [] → ∃ w1,
      drain_once prog fuel ((schedule_all spurious es w).stop.enter t) =
        some (w1, es.reverse) ∧
      (schedule_all spurious es w).stop.run prog (fuel + 1) t =
        (run_loop prog fuel w1).map (fun r => { r with resumed := es.reverse ++ r.resumed }) ∧
      (w1.ctx.head_ = none →
        ∃ r, (schedule_all spurious es w).stop.run prog (fuel + 1) t = some r ∧
          r.status = run_status.returned ∧ r.resumed = es.reverse)) ∧
    (∀ r, (schedule_all spurious es w).stop.run prog (fuel + 1) t = some r →
      r.status = run_status.returned ∧ r.w.ctx.head_ = none ∧ es.reverse <+: r.resumed) := by
  obtain ⟨h1, h2, _, _⟩ := pending_after_schedules prog spurious es w hempty hnd hprog
  generalize hW : schedule_all spurious es w = W at h1 h2
  have hstop : (W.stop.enter t).ctx.stop_ = true := by simp [world.stop, world.enter]
  have hev : (W.stop.enter t).take.2.events = W.events := by
    simp [world.stop, world.enter, world.take]
  have hhead : (W.stop.enter t).take.1 = W.ctx.head_ := by
    simp [world.stop, world.enter, world.take]
  have hlast : ∀ r, W.stop.run prog (fuel + 1) t = some r →
      r.status = run_status.returned ∧ r.w.ctx.head_ = none := by
    intro r hr
    have h := run_loop_ctx prog (fuel + 1) (W.stop.enter t) r hr
    exact ⟨h.2.2 hstop, h.2.1⟩
  have hempty_case : es = [] → ∃ r, W.stop.run prog (fuel + 1) t = some r ∧
      r.status = run_status.returned ∧ r.resumed = [] := by
    intro he
    subst he
    have hn : W.ctx.head_ = none := by simpa [linked] using h1
    refine ⟨{ status := run_status.returned, w := (W.stop.enter t).take.2, resumed := [] },
      ?_, rfl, rfl⟩
    simp [world.run, run_loop, hhead, hn, world.stop, world.enter, world.take]
  have hdrain : ∃ w1, drain prog fuel (W.stop.enter t).take.1 (W.stop.enter t).take.2 =
      some (w1, es.reverse) ∧ (w1.ctx.stop_ = true) := by
    obtain ⟨w1, hd, _, hs⟩ := drain_linked prog es.reverse fuel (W.stop.enter t).take.1
      (W.stop.enter t).take.2 (by rw [hev, hhead]; exact h1) (by simpa using hfuel)
      (by rw [hev]; exact h2)
    exact ⟨w1, hd, hs (by simp [world.stop, world.enter, world.take])⟩
  obtain ⟨w1, hd, hs1⟩ := hdrain
  have hne_case : es ≠ [] → W.stop.run prog (fuel + 1) t =
      (run_loop prog fuel w1).map (fun r => { r with resumed := es.reverse ++ r.resumed }) := by
    intro hne
    obtain ⟨x, hx⟩ : ∃ x, (W.stop.enter t).take.1 = some x := by
      cases hre : es.reverse with
      | nil => exact absurd (List.reverse_eq_nil_iff.mp hre) hne
      | cons x rest =>
        rw [hre] at h1
        simp only [linked, Bool.and_eq_true, beq_iff_eq] at h1
        exact ⟨x, by rw [hhead]; exact h1.1⟩
    rw [hx] at hd
    exact run_loop_resumed_front prog fuel (W.stop.enter t) w1 x es.reverse hx hd
  refine ⟨hempty_case, ?_, ?_⟩
  · intro hne
    refine ⟨w1, by simpa [drain_once] using hd, hne_case hne, ?_⟩
    intro hnone
    have hfuel1 : ∃ f, fuel = f + 1 := by
      cases fuel with
      | zero =>
        have : es.length = 0 := by omega
        exact absurd (List.length_eq_zero.mp this) hne
      | succ f => exact ⟨f, rfl⟩
    obtain ⟨f, hf⟩ := hfuel1
    refine ⟨{ status := run_status.returned, w := w1.take.2, resumed := es.reverse ++ [] },
      ?_, rfl, by simp⟩
    rw [hne_case hne, hf]
    simp [run_loop, world.take, hnone, hs1]
  · intro r hr
    refine ⟨(hlast r hr).1, (hlast r hr).2, ?_⟩
    by_cases hne : es = []
    · subst hne
      simp
    · rw [hne_case hne] at hr
      cases hrl : run_loop prog fuel w1 with
      | none => simp [hrl] at hr
      | some r1 =>
        simp only [hrl, Option.map_some', Option.some.injEq] at hr
        subst hr
        exact List.prefix_append _ _

/-- Witness for C8 amended: with events 1 and 2 pending and nothing scheduled meanwhile,
a stopped `run()` resumes 2 and 1 and returns. -/
theorem graceful_stop_amended_witness :
    ∃ r, (schedule_all (fun _ => 0) [1, 2] {}).stop.run (fun _ => []) (2 + 1) 7 = some r ∧
      r.status = run_status.returned ∧ r.resumed = [2, 1] :=
  have h := (graceful_stop_amended (fun _ => []) (fun _ => 0) [1, 2] {} 2 7 rfl (by decide)
    (fun _ _ _ ha => absurd ha (List.not_mem_nil _)) (by decide)).2.1 (by decide)
  Exists.elim h (fun _ hw => hw.2.2 (by
    have e := hw.1
    have e2 : drain_once (fun _ => []) 2
        ((schedule_all (fun _ => 0) [1, 2] {}).stop.enter 7) =
        some (((drain_once (fun _ => []) 2
          ((schedule_all (fun _ => 0) [1, 2] {}).stop.enter 7)).get rfl).1, [2, 1]) := rfl
    rw [e2] at e
    simp only [Option.some.injEq, Prod.mk.injEq] at e
    rw [← e.1]
    rfl))

/-- C9 (schedule awaitable). For every world, thread `t` and `post` flag, `await_ready` of
the awaitable that `co_await schedule(context, post)` constructs and awaits on `t` is true
exactly when `t` is the thread recorded by the context and `post` is false; in that case
`co_await` does not suspend and leaves the
context and every other event as they were; otherwise it suspends, and `await_suspend`
records the awaiter in the awaitable and pushes the awaitable onto the pending list, in
front of what was pending. -/
theorem schedule_fast_path (w : world) (self : Nat) (post : Bool) (t awaiter spurious : Nat) :
    ((schedule.ctor self post t w).1.await_ready = true ↔
      (w.ctx.thread_ = some t ∧ post = false)) ∧
    ((schedule.ctor self post t w).1.await_ready = true →
      (schedule.co_await self post t awaiter spurious w).1 = false ∧
      (schedule.co_await self post t awaiter spurious w).2.ctx = w.ctx ∧
      (∀ e, e ≠ self → (schedule.co_await self post t awaiter spurious w).2.events e =
        w.events e) ∧
      (∀ l, self ∉ l →
        linked (schedule.co_await self post t awaiter spurious w).2.events
          (schedule.co_await self post t awaiter spurious w).2.ctx.head_ l =
        linked w.events w.ctx.head_ l)) ∧
    ((schedule.ctor self post t w).1.await_ready = false →
      (schedule.co_await self post t awaiter spurious w).1 = true ∧
      (schedule.co_await self post t awaiter spurious w).2 =
        (schedule.ctor self post t w).1.await_suspend awaiter spurious
          (schedule.ctor self post t w).2) ∧
    (∀ (s : schedule) (w0 : world),
      ((s.await_suspend awaiter spurious w0).events s.self).awaiter_ = awaiter ∧
      ((s.await_suspend awaiter spurious w0).events s.self).next_ = w0.ctx.head_ ∧
      (s.await_suspend awaiter spurious w0).ctx.head_ = some s.self ∧
      (s.await_suspend awaiter spurious w0).ctx.stop_ = w0.ctx.stop_ ∧
      (s.await_suspend awaiter spurious w0).ctx.thread_ = w0.ctx.thread_ ∧
      (∀ e, e ≠ s.self → (s.await_suspend awaiter spurious w0).events e = w0.events e) ∧
      (∀ l, s.self ∉ l → linked w0.events w0.ctx.head_ l = true →
        linked (s.await_suspend awaiter spurious w0).events
          (s.await_suspend awaiter spurious w0).ctx.head_ (s.self :: l) = true)) := by
  refine ⟨?_, ?_, ?_, ?_⟩
  · cases post <;> simp [schedule.ctor, schedule.await_ready, world.is_current]
  · intro hr
    have hev : ∀ e, e ≠ self →
        (schedule.co_await self post t awaiter spurious w).2.events e = w.events e := by
      intro e he
      simp only [schedule.co_await, hr, if_true]
      simp [schedule.ctor, Function.update, he]
    have hc : (schedule.co_await self post t awaiter spurious w).2.ctx = w.ctx := by
      simp only [schedule.co_await, hr, if_true]
      simp [schedule.ctor]
    refine ⟨by simp only [schedule.co_await, hr, if_true], hc, hev, ?_⟩
    intro l hl
    rw [hc]
    exact linked_congr _ _ l _ (fun e he => hev e (fun h => hl (h ▸ he)))
  · intro hr
    simp only [schedule.co_await, hr]
    simp
  · intro s w0
    have hev : ∀ e, e ≠ s.self →
        (s.await_suspend awaiter spurious w0).events e = w0.events e := by
      intro e he
      simp [schedule.await_suspend, schedule_eq, Function.update, he]
    refine ⟨by simp [schedule.await_suspend, schedule_eq],
      by simp [schedule.await_suspend, schedule_eq],
      by simp [schedule.await_suspend, schedule_eq],
      by simp [schedule.await_suspend, schedule_eq],
      by simp [schedule.await_suspend, schedule_eq], hev, ?_⟩
    intro l hl hlk
    have hn : ((s.await_suspend awaiter spurious w0).events s.self).next_ = w0.ctx.head_ := by
      simp [schedule.await_suspend, schedule_eq]
    have hh : (s.await_suspend awaiter spurious w0).ctx.head_ = some s.self := by
      simp [schedule.await_suspend, schedule_eq]
    simp only [linked, hh, hn, beq_self_eq_true, Bool.true_and]
    rw [linked_congr _ w0.events l _ (fun e he => hev e (fun h => hl (h ▸ he)))]
    exact hlk

/-- Witness for C9: on the thread recorded by the context and without `post` the
awaitable is ready and the pending list keeps its head; with `post` the coroutine
suspends. -/
theorem schedule_fast_path_witness :
    (schedule.co_await 9 false 7 50 0
        { ctx := { thread_ := some 7, head_ := some 3 } }).2.ctx =
      { thread_ := some 7, head_ := some 3 } ∧
    (schedule.co_await 9 true 7 50 0
        { ctx := { thread_ := some 7, head_ := some 3 } }).1 = true :=
  ⟨((schedule_fast_path { ctx := { thread_ := some 7, head_ := some 3 } } 9 false 7 50 0).2.1
      (by decide)).2.1,
   ((schedule_fast_path { ctx := { thread_ := some 7, head_ := some 3 } } 9 true 7 50 0).2.2.1
      (by decide)).1⟩

/-- C10, counterexample. Thread 7 runs the loop of a stopped, empty context; `run()`
returns, and `is_current()` called on thread 7 afterwards is still true. -/
theorem is_current_after_run_returned :
    ((world.run (fun _ => []) 1 7 (world.stop {})).map
      (fun r => (r.status, r.w.is_current 7))) = some (run_status.returned, true) := by
  decide

/-- C10, amended (`is_current`). The answer is true exactly on the thread that last
entered `run()` of this context: false on every thread for a context whose `run()` was
never entered, also after events were scheduled or `stop()` was called; from the store at
the entry of `run()` on thread `t` on, true on `t` and false on every other thread; no
resumed event changes that; and it is still so in the world that `run()` leaves behind,
since `thread_` is never cleared. -/
theorem is_current_amended (prog : Nat → List action) (spurious : Nat → Nat)
    (es : List Nat) (fuel t u : Nat) (w : world) :
    world.is_current {} u = false ∧
    (world.is_current (schedule_all spurious es {}).stop u = false) ∧
    ((w.enter t).is_current u = true ↔ u = t) ∧
    (∀ e, ((event_resume prog e (w.enter t)).is_current u = true ↔ u = t)) ∧
    (∀ r, w.run prog fuel t = some r → (r.w.is_current u = true ↔ u = t)) := by
  have hsched : ∀ (l : List Nat) (w0 : world),
      (schedule_all spurious l w0).ctx.thread_ = w0.ctx.thread_ := by
    intro l
    induction l with
    | nil => intro w0; rfl
    | cons e rest ih =>
      intro w0
      simp only [schedule_all]
      rw [ih, schedule_eq]
  refine ⟨by simp [world.is_current], ?_, ?_, ?_, ?_⟩
  · have h := hsched es {}
    simp only [world.is_current, world.stop, h]
    rfl
  · simp only [world.is_current, world.enter, beq_iff_eq, Option.some.injEq]
    exact eq_comm
  · intro e
    have h := (run_actions_ctx (prog ((w.enter t).events e).awaiter_) (w.enter t)).1
    unfold world.is_current event_resume
    rw [h]
    simp only [world.enter, beq_iff_eq, Option.some.injEq]
    exact eq_comm
  · intro r hr
    have h := (run_loop_ctx prog fuel (w.enter t) r hr).1
    simp only [world.is_current, h, world.enter, beq_iff_eq, Option.some.injEq]
    exact eq_comm

/-- Witness for C10 amended: after `run()` returned on thread 7, `is_current()` is false
on thread 8, as the amended claim says for every thread but 7. -/
theorem is_current_amended_witness :
    (((world.run (fun _ => []) 1 7 (world.stop {})).get rfl).w.is_current 8 = true ↔ 8 = 7) :=
  (is_current_amended (fun _ => []) (fun _ => 0) [] 1 7 8 (world.stop {})).2.2.2.2 _
    (Option.some_get _).symm

/-! ## Theorems about awaiting a task -/

theorem ready_no_suspend {P : Type} [promise_type P] (a : awaitable_base) (h awaiter : Nat)
    (ps : Nat → P) (ha : a.coroutine_ = some h)
    (hfin : (promise_type.base (ps h)).state_ = state.finished) :
    a.await_ready ps = true ∧
    a.co_await awaiter ps =
      some { suspend_called := false, suspended := false, promises := ps } := by
  have hr : a.await_ready ps = true := by
    simp [awaitable_base.await_ready, ha, task_promise_base.is_ready, hfin]
  exact ⟨hr, by simp [awaitable_base.co_await, hr]⟩

theorem ready_no_suspend_all {P : Type} [promise_type P] (t : task) (h awaiter : Nat)
    (ps : Nat → P) (ht : t.coroutine_ = some h)
    (hfin : (promise_type.base (ps h)).state_ = state.finished) :
    ∀ a ∈ [t.co_await_lvalue, t.co_await_rvalue, t.when_ready],
      a.await_ready ps = true ∧
      a.co_await awaiter ps =
        some { suspend_called := false, suspended := false, promises := ps } := by
  intro a ha
  have hc : a.coroutine_ = some h := by
    simp only [List.mem_cons, List.mem_singleton, List.not_mem_nil, or_false] at ha
    rcases ha with h1 | h1 | h1 <;> subst h1 <;>
      simpa [task.co_await_lvalue, task.co_await_rvalue, task.when_ready] using ht
  exact ready_no_suspend a h awaiter ps hc hfin

/-- C11 (ready-task fast path). For a task that holds the frame `h` whose promise is
finished, whichever of the three promise classes it is: the awaitables of both
`operator co_await` overloads and of `when_ready` answer true to `await_ready`; evaluating
`co_await` on them calls neither `await_suspend` nor `try_await`, does not suspend, and
leaves every promise, state and stored continuation included, as it was; `await_resume`
yields the promise's `result()`, which is the value `v` after `co_return v` for `task<T>`,
nothing for `task<void>`, and the object `x` after `co_return x` for `task<T&>`; the
awaitable of `when_ready` yields nothing. A coroutine that was not detached and runs
`co_return v` leaves its promise finished, holding `v`, with the continuation untouched. -/
theorem ready_task_fast_path {α : Type} (t : task) (h awaiter : Nat)
    (pa : Nat → task_promise α) (pv : Nat → task_promise_void) (pr : Nat → task_promise_ref)
    (ht : t.coroutine_ = some h) :
    ((pa h).state_ = state.finished →
      (∀ a ∈ [t.co_await_lvalue, t.co_await_rvalue, t.when_ready],
        a.await_ready pa = true ∧
        a.co_await awaiter pa =
          some { suspend_called := false, suspended := false, promises := pa }) ∧
      t.co_await_lvalue.await_resume pa = (pa h).result ∧
      t.co_await_rvalue.await_resume pa = (pa h).result ∧
      (∀ (p0 : task_promise α) (v : α), pa h = p0.co_return v →
        t.co_await_lvalue.await_resume pa = some v ∧
        t.co_await_rvalue.await_resume pa = some v)) ∧
    ((pv h).state_ = state.finished →
      (∀ a ∈ [t.co_await_lvalue, t.co_await_rvalue, t.when_ready],
        a.await_ready pv = true ∧
        a.co_await awaiter pv =
          some { suspend_called := false, suspended := false, promises := pv }) ∧
      t.co_await_lvalue.await_resume_void pv = some () ∧
      t.co_await_rvalue.await_resume_void pv = some ()) ∧
    ((pr h).state_ = state.finished →
      (∀ a ∈ [t.co_await_lvalue, t.co_await_rvalue, t.when_ready],
        a.await_ready pr = true ∧
        a.co_await awaiter pr =
          some { suspend_called := false, suspended := false, promises := pr }) ∧
      (∀ (q0 : task_promise_ref) (x : Nat), pr h = q0.co_return x →
        t.co_await_lvalue.await_resume_ref pr = some x ∧
        t.co_await_rvalue.await_resume_ref pr = some x)) ∧
    t.when_ready.when_ready_await_resume = () ∧
    (∀ (p0 : task_promise α) (v : α), p0.state_ ≠ state.consumer_detached →
      (p0.co_return v).state_ = state.finished ∧ (p0.co_return v).result = some v ∧
      (p0.co_return v).continuation_ = p0.continuation_) := by
  refine ⟨?_, ?_, ?_, rfl, ?_⟩
  · intro hfin
    refine ⟨ready_no_suspend_all t h awaiter pa ht hfin, ?_, ?_, ?_⟩
    · simp [awaitable_base.await_resume, task.co_await_lvalue, ht]
    · simp [awaitable_base.await_resume, task.co_await_rvalue, ht]
    · intro p0 v hp
      simp [awaitable_base.await_resume, task.co_await_lvalue, task.co_await_rvalue, ht, hp,
        task_promise.co_return, final_suspend, promise_type.with_base,
        task_promise.return_value, task_promise.result]
  · intro hfin
    refine ⟨ready_no_suspend_all t h awaiter pv ht hfin, ?_, ?_⟩
    · simp [awaitable_base.await_resume_void, task.co_await_lvalue, ht]
    · simp [awaitable_base.await_resume_void, task.co_await_rvalue, ht]
  · intro hfin
    refine ⟨ready_no_suspend_all t h awaiter pr ht hfin, ?_⟩
    intro q0 x hq
    simp [awaitable_base.await_resume_ref, task.co_await_lvalue, task.co_await_rvalue, ht, hq,
      task_promise_ref.co_return, final_suspend, promise_type.with_base,
      task_promise_ref.return_value, task_promise_ref.result]
  · intro p0 v hne
    obtain ⟨⟨st, k⟩, val⟩ := p0
    cases st <;>
      simp_all [task_promise.co_return, final_suspend, promise_type.with_base,
        promise_type.base, task_promise.return_value, task_promise.result,
        promise_op.apply, task_promise_base.final_await_ready,
        task_promise_base.final_await_suspend, atomic_exchange]

/-- Witness for C11: a coroutine ran `co_return 42`; awaiting its task yields 42. -/
theorem ready_task_fast_path_witness :
    (task.from_handle 1).co_await_lvalue.await_resume
        (fun _ => task_promise.co_return ({} : task_promise Nat) 42) = some 42 :=
  (((ready_task_fast_path (task.from_handle 1) 1 9
      (fun _ => task_promise.co_return ({} : task_promise Nat) 42)
      (fun _ => {}) (fun _ => {}) rfl).1 rfl).2.2.2 {} 42 rfl).1

/-! ## Theorems about the idle wait -/

theorem cv_wait_true (wakeups k : Nat) : cv_wait run_wait_predicate wakeups k = (0, true) := by
  cases wakeups <;> simp [cv_wait, run_wait_predicate]

theorem idle_loop_no_block (others : Nat → List action) (wakeups : Nat → Nat) (fuel : Nat) :
    ∀ (k : Nat) (w : world),
      (idle_loop others wakeups fuel k w).blocking_waits = 0 ∧
      (idle_loop others wakeups fuel k w).status ≠ idle_status.blocked := by
  induction fuel with
  | zero =>
    intro k w
    simp [idle_loop]
  | succ fuel ih =>
    intro k w
    simp only [idle_loop, cv_wait_true]
    by_cases hs : w.ctx.stop_ = true
    · simp [hs]
    · simp only [hs, Bool.false_eq_true, if_false, Bool.not_true]
      cases hh : (run_actions (others k) w).take.1 with
      | none =>
        have h := ih (k + 1) (run_actions (others k) w).take.2
        simp [h.1, h.2]
      | some x => simp

theorem idle_loop_spins (wakeups : Nat → Nat) (fuel : Nat) :
    ∀ (k : Nat) (w : world), w.ctx.stop_ = false → w.ctx.head_ = none →
      (idle_loop (fun _ => []) wakeups fuel k w).polls = fuel ∧
      (idle_loop (fun _ => []) wakeups fuel k w).status = idle_status.polling := by
  induction fuel with
  | zero =>
    intro k w _ _
    simp [idle_loop]
  | succ fuel ih =>
    intro k w hs hh
    have h := ih (k + 1) w.take.2 (by simpa [world.take] using hs) (by simp [world.take])
    simp only [idle_loop, cv_wait_true, hs, run_actions]
    simp [world.take, hh]
    simpa [world.take] using h

/-- C12 (idle wait), what the code does. The predicate handed to `cv_.wait` is always
true, so the wait returns at once and enters no blocking wait; the idle loop of `run()`
therefore never blocks, whatever other threads do; on a context with an empty pending
list and a clear stop flag that no other thread touches it polls the head once per
iteration, `fuel` times in `fuel` iterations, without a single blocking wait in between,
and `run()` on such a context is polling. -/
theorem idle_loop_polls_without_blocking (others : Nat → List action) (wakeups : Nat → Nat)
    (prog : Nat → List action) (fuel k t : Nat) (w : world) :
    (∀ n i, cv_wait run_wait_predicate n i = (0, true)) ∧
    (idle_loop others wakeups fuel k w).blocking_waits = 0 ∧
    (idle_loop others wakeups fuel k w).status ≠ idle_status.blocked ∧
    (idle_loop (fun _ => []) wakeups fuel k
      { w with ctx := { w.ctx with stop_ := false, head_ := none } }).polls = fuel ∧
    (idle_loop (fun _ => []) wakeups fuel k
      { w with ctx := { w.ctx with stop_ := false, head_ := none } }).blocking_waits = 0 ∧
    (idle_loop (fun _ => []) wakeups fuel k
      { w with ctx := { w.ctx with stop_ := false, head_ := none } }).status =
        idle_status.polling ∧
    (world.run prog (fuel + 1) t
      { w with ctx := { w.ctx with stop_ := false, head_ := none } }).map
        (fun r => (r.status, r.resumed)) = some (run_status.polling, []) := by
  have h1 := idle_loop_no_block others wakeups fuel k w
  have h2 := idle_loop_spins wakeups fuel k
    { w with ctx := { w.ctx with stop_ := false, head_ := none } } rfl rfl
  have h3 := idle_loop_no_block (fun _ => []) wakeups fuel k
    { w with ctx := { w.ctx with stop_ := false, head_ := none } }
  refine ⟨cv_wait_true, h1.1, h1.2, h2.1, h3.1, h2.2, ?_⟩
  simp [world.run, run_loop, world.enter, world.take]

end ice

namespace Dialog

/-! ## Theorems about the dialog's resumption target -/

/-- C13 (dialog executor post), what the code does. The message that `Schedule::await_suspend` posts
carries `WM_DIALOG_CREATE`, not `WM_DIALOG_RESUME`: for every dialog, `Schedule` object and
coroutine, `Proc` answers it by setting `hwnd_` and running `OnDialogCreate` (or by nothing
when the window has no dialog attached) and resumes no coroutine; the same `lparam` sent
with `WM_DIALOG_RESUME` would resume the coroutine once. Evaluated for the `Schedule` at
address 4096 of window 1 awaited by coroutine 55, with the dialog at address 7. -/
theorem posted_message_runs_create (env : handler_results) (user_data : Nat)
    (schedules : Nat → Schedule) (s : Schedule) (self coroutine : Nat) :
    (s.await_suspend self coroutine).2.msg = WM_DIALOG_CREATE ∧
    (s.await_suspend self coroutine).2.msg ≠ WM_DIALOG_RESUME ∧
    (Proc env user_data schedules (s.await_suspend self coroutine).2 =
        (1, [effect.set_hwnd s.hwnd_, effect.OnDialogCreate]) ∨
      Proc env user_data schedules (s.await_suspend self coroutine).2 = (0, [])) ∧
    (∀ c, effect.resume c ∉
      (Proc env user_data schedules (s.await_suspend self coroutine).2).2) ∧
    Proc {} 7 (fun _ => (Schedule.await_suspend { hwnd_ := 1 } 4096 55).1)
        (Schedule.await_suspend { hwnd_ := 1 } 4096 55).2 =
      (1, [effect.set_hwnd 1, effect.OnDialogCreate]) ∧
    Proc {} 7 (fun _ => (Schedule.await_suspend { hwnd_ := 1 } 4096 55).1)
        { hwnd := 1, msg := WM_DIALOG_RESUME, wparam := 0, lparam := 4096 } =
      (1, [effect.resume 55]) := by
  have hm : (s.await_suspend self coroutine).2.msg = WM_DIALOG_CREATE := rfl
  have hcases : Proc env user_data schedules (s.await_suspend self coroutine).2 =
        (1, [effect.set_hwnd s.hwnd_, effect.OnDialogCreate]) ∨
      Proc env user_data schedules (s.await_suspend self coroutine).2 = (0, []) := by
    by_cases hu : user_data = 0
    · right
      simp [Proc, Schedule.await_suspend, WM_DIALOG_CREATE, winuser.WM_USER,
        winuser.WM_INITDIALOG, hu]
    · left
      simp [Proc, Schedule.await_suspend, WM_DIALOG_CREATE, winuser.WM_USER,
        winuser.WM_INITDIALOG, hu]
  refine ⟨hm, ?_, hcases, ?_, by decide, by decide⟩
  · rw [hm]
    decide
  · intro c
    rcases hcases with h | h <;> simp [h]

end Dialog
